import Mathlib

/-!
Verification of the GemScript language frontend (lexer in `src/lang/Token.cpp`,
parser/typechecker pieces in `src/lang/exprs/AST.cpp`, entity model in
`src/compiler/Entity.hpp`) against its natural-language specification.

The embedding works byte-wise over `List Char` (the source is scanned with
byte-level primitives; all inputs considered here are ASCII, and the multi-byte
UTF-8 characters appearing in the C++ reserved-character string are kept as
their individual bytes).  A `Stream` is the remaining input together with the
last-token memo and a count of emitted warnings; rollback is modelled by
returning the saved stream on the error path, which mirrors the `Rollback`
destructor navigating back to the recorded offset and discarding buffered
diagnostics (the last-token memo is not part of a rollback frame, so it is
kept).
-/

namespace GemScript

/-- The closed keyword enumeration from the `KEYWORDS` table in Token.cpp. -/
inductive Keyword
  | For | While | In | If | Else | Try | Function | Return | Break | Continue
  | From | Struct | Decl | Enum | Extends | Required | Get | Set | Depends
  | New | Const | Let | Using | Export | Import | Extern | As | Is | Typeof
  | True | False | Null
deriving DecidableEq

/-- The closed operator enumeration from the `OPS` table in Token.cpp. -/
inductive Op
  | Not | Mul | Div | Mod | Add | Sub
  | Eq | Neq | Less | Leq | More | Meq
  | And | Or
  | ModSeq | DivSeq | MulSeq | SubSeq | AddSeq | Seq
  | Arrow | Farrow | Bind | Scope
deriving DecidableEq

/-- Operator associativity. -/
inductive OpDir
  | LTR | RTL
deriving DecidableEq

/-- Literal tokens: a variant over void/bool/int/float/string.  The C++ stores
`IntLit = u64` (the lexer rejects values that do not fit, via `std::stoul`
throwing) and `FloatLit = f64` produced by `std::stod`; floating-point values
are not modelled, so a float literal here carries the numeric lexeme instead.
No theorem below depends on float values. -/
inductive Lit
  | void
  | bool (b : Bool)
  | int (n : Nat)
  | float (lexeme : List Char)
  | str (s : List Char)
deriving DecidableEq

/-- A token: tagged variant over keyword/identifier/literal/operator/punctuation. -/
inductive Token
  | kw (k : Keyword)
  | ident (s : List Char)
  | lit (l : Lit)
  | op (o : Op)
  | punct (c : Char)
deriving DecidableEq

/-- The kind of a token (literal variants distinguished), the equivalence the
round-trip property of the spec talks about. -/
inductive TokKind
  | kw | ident | litVoid | litBool | litInt | litFloat | litStr | op | punct
deriving DecidableEq

def kindOf : Token → TokKind
  | Token.kw _ => TokKind.kw
  | Token.ident _ => TokKind.ident
  | Token.lit Lit.void => TokKind.litVoid
  | Token.lit (Lit.bool _) => TokKind.litBool
  | Token.lit (Lit.int _) => TokKind.litInt
  | Token.lit (Lit.float _) => TokKind.litFloat
  | Token.lit (Lit.str _) => TokKind.litStr
  | Token.op _ => TokKind.op
  | Token.punct _ => TokKind.punct

/-- The tokenizer stream: remaining input, last-token memo, warning count.
The byte offset of the cursor is the source length minus `rem.length`, so
statements about offsets are phrased through `rem`. -/
structure Stream where
  rem : List Char
  last : Option Token
  warns : Nat
deriving DecidableEq

/- Named characters (kept out of character-literal syntax). -/

def chNul : Char := Char.ofNat 0
def chTab : Char := Char.ofNat 9
def chNL : Char := Char.ofNat 10
def chVT : Char := Char.ofNat 11
def chFF : Char := Char.ofNat 12
def chCR : Char := Char.ofNat 13
def chQuote : Char := Char.ofNat 34
def chApos : Char := Char.ofNat 39
def chBackslash : Char := Char.ofNat 92
def chBacktick : Char := Char.ofNat 96
def chLBrace : Char := Char.ofNat 123
def chRBrace : Char := Char.ofNat 125
/- The C++ string ".,;(){}[]@`\\´¨'\"" is a byte string; `´` (U+00B4) and `¨`
(U+00A8) are the UTF-8 byte pairs C2 B4 and C2 A8. -/
def chC2 : Char := Char.ofNat 194
def chB4 : Char := Char.ofNat 180
def chA8 : Char := Char.ofNat 168

/-- `INVALID_IDENT_CHARS` from Token.cpp, as bytes. -/
def INVALID_IDENT_CHARS : List Char :=
  ['.', ',', ';', '(', ')', chLBrace, chRBrace, '[', ']', '@',
   chBacktick, chBackslash, chC2, chB4, chC2, chA8, chApos, chQuote]

/-- `VALID_OP_CHARS` from Token.cpp. -/
def VALID_OP_CHARS : List Char := "=+-/*<>!#?&|%:~^".toList

/-- `PUNCTUATION` from Token.cpp: `()[]{}:;,.@`. -/
def PUNCTUATION : List Char :=
  ['(', ')', '[', ']', chLBrace, chRBrace, ':', ';', ',', '.', '@']

/-- C `isspace` on ASCII bytes. -/
def csIsSpace (c : Char) : Bool :=
  c = ' ' || c = chTab || c = chNL || c = chVT || c = chFF || c = chCR

/-- C `isdigit`. -/
def isDigitCh (c : Char) : Bool :=
  48 ≤ c.toNat && c.toNat ≤ 57

/-- `lang::isIdentCh`: not reserved, not an operator char, not whitespace, not NUL. -/
def isIdentCh (c : Char) : Bool :=
  !INVALID_IDENT_CHARS.contains c && !VALID_OP_CHARS.contains c &&
    !csIsSpace c && c != chNul

/-- `lang::isOpCh`. -/
def isOpCh (c : Char) : Bool := VALID_OP_CHARS.contains c

/-- The `KEYWORDS` map from Token.cpp (spelling table). -/
def KEYWORDS : List (Keyword × List Char) :=
  [ (Keyword.For, "for".toList)
  , (Keyword.While, "while".toList)
  , (Keyword.In, "in".toList)
  , (Keyword.If, "if".toList)
  , (Keyword.Else, "else".toList)
  , (Keyword.Try, "try".toList)
  , (Keyword.Function, "fun".toList)
  , (Keyword.Return, "return".toList)
  , (Keyword.Break, "break".toList)
  , (Keyword.Continue, "continue".toList)
  , (Keyword.From, "from".toList)
  , (Keyword.Struct, "struct".toList)
  , (Keyword.Decl, "decl".toList)
  , (Keyword.Enum, "enum".toList)
  , (Keyword.Extends, "extends".toList)
  , (Keyword.Required, "required".toList)
  , (Keyword.Get, "get".toList)
  , (Keyword.Set, "set".toList)
  , (Keyword.Depends, "depends".toList)
  , (Keyword.New, "new".toList)
  , (Keyword.Const, "const".toList)
  , (Keyword.Let, "let".toList)
  , (Keyword.Using, "using".toList)
  , (Keyword.Export, "export".toList)
  , (Keyword.Import, "import".toList)
  , ( Keyword.Extern, "extern".toList)
  , (Keyword.As, "as".toList)
  , (Keyword.Is, "is".toList)
  , (Keyword.Typeof, "typeof".toList)
  , (Keyword.True, "true".toList)
  , (Keyword.False, "false".toList)
  , (Keyword.Null, "null".toList) ]

/-- Spelling of a keyword (`tokenToString(Keyword, debug=false)`); the C++ map
contains every keyword, so the default is unreachable. -/
def kwStr (k : Keyword) : List Char :=
  ((KEYWORDS.find? (fun p => p.1 == k)).map (fun p => p.2)).getD []

/-- Keyword lookup used by `Token::pull` (iteration order of the C++
`unordered_map` is irrelevant: spellings are distinct). -/
def kwFromString (s : List Char) : Option Keyword :=
  (KEYWORDS.find? (fun p => p.2 == s)).map (fun p => p.1)

/-- The `OPS` table from Token.cpp: spelling, precedence, associativity. -/
def opInfo : Op → List Char × Nat × OpDir
  | Op.Not => ("!".toList, 7, OpDir.RTL)
  | Op.Mul => ("*".toList, 6, OpDir.LTR)
  | Op.Div => ("/".toList, 6, OpDir.LTR)
  | Op.Mod => ("%".toList, 6, OpDir.LTR)
  | Op.Add => ("+".toList, 5, OpDir.LTR)
  | Op.Sub => ("-".toList, 5, OpDir.LTR)
  | Op.Eq => ("==".toList, 4, OpDir.LTR)
  | Op.Neq => ("!=".toList, 4, OpDir.LTR)
  | Op.Less => ("<".toList, 4, OpDir.LTR)
  | Op.Leq => ("<=".toList, 4, OpDir.LTR)
  | Op.More => (">".toList, 4, OpDir.LTR)
  | Op.Meq => (">=".toList, 4, OpDir.LTR)
  | Op.And => ("&&".toList, 3, OpDir.LTR)
  | Op.Or => ("||".toList, 2, OpDir.LTR)
  | Op.ModSeq => ("%=".toList, 1, OpDir.RTL)
  | Op.DivSeq => ("/=".toList, 1, OpDir.RTL)
  | Op.MulSeq => ("*=".toList, 1, OpDir.RTL)
  | Op.SubSeq => ("-=".toList, 1, OpDir.RTL)
  | Op.AddSeq => ("+=".toList, 1, OpDir.RTL)
  | Op.Seq => ("=".toList, 1, OpDir.RTL)
  | Op.Arrow => ("->".toList, 0, OpDir.RTL)
  | Op.Farrow => ("=>".toList, 0, OpDir.RTL)
  | Op.Bind => ("<=>".toList, 0, OpDir.LTR)
  | Op.Scope => ("::".toList, 0, OpDir.LTR)

def opStr (o : Op) : List Char := (opInfo o).1

/-- `lang::opPriority`. -/
def opPriority (o : Op) : Nat := (opInfo o).2.1

/-- `lang::opDir`. -/
def opDir (o : Op) : OpDir := (opInfo o).2.2

def allOps : List Op :=
  [ Op.Not, Op.Mul, Op.Div, Op.Mod, Op.Add, Op.Sub
  , Op.Eq, Op.Neq, Op.Less, Op.Leq, Op.More, Op.Meq
  , Op.And, Op.Or
  , Op.ModSeq, Op.DivSeq, Op.MulSeq, Op.SubSeq, Op.AddSeq, Op.Seq
  , Op.Arrow, Op.Farrow, Op.Bind, Op.Scope ]

def OPS : List (Op × List Char) := allOps.map (fun o => (o, opStr o))

/-- Operator lookup in `Token::pull` (spellings are distinct, so the C++
`unordered_map` iteration order is irrelevant). -/
def opFromString (s : List Char) : Option Op :=
  (OPS.find? (fun p => p.2 == s)).map (fun p => p.1)

/-- `lang::isUnOp`: only `+ - !` are unary prefix operators. -/
def isUnOp : Op → Bool
  | Op.Add => true
  | Op.Sub => true
  | Op.Not => true
  | _ => false

/-- `lang::isIdent`: nonempty, does not start with a digit, all ident chars,
not a keyword spelling. -/
def isIdent (s : List Char) : Bool :=
  match s with
  | [] => false
  | c :: _ =>
    !isDigitCh c && s.all isIdentCh && KEYWORDS.all (fun p => p.2 != s)

/-- The `// … newline` comment loop in `Token::skipToNext`: consumes bytes
until a newline has been consumed or EOF is reached (called here on the input
just past the two slashes). -/
def skipLineComment : List Char → List Char
  | [] => []
  | c :: rest => if c = chNL then rest else skipLineComment rest

/-- The `/* … */` loop in `Token::skipToNext`, called here on the input just
past the opening `/pair (the C++ loop consumes the opening two bytes in its
first iteration).  The loop consumes one byte in its condition and — when it
does not exit — one more in its body, so bytes are consumed in PAIRS: it exits
only when a condition-position byte is `*` and the byte after it is `/`, and
it then leaves that final `/` unconsumed.  This mirrors the C++ exactly,
including the misalignment bug (see the block-comment theorem below). -/
def skipBlockComment : List Char → List Char
  | [] => []
  | [_] => []
  | c :: d :: rest => if c = '*' && d = '/' then d :: rest else skipBlockComment rest

/-- One pass structure of `Token::skipToNext`: alternately consume whitespace
and comments.  `fuel` only bounds the number of outer-loop iterations; every
iteration that recurses consumes at least one byte, so `l.length + 1` fuel
(as used by `skipToNext`) always suffices and the fuel-exhaustion branch is
unreachable. -/
def skipToNextF : Nat → List Char → List Char
  | 0, l => l.dropWhile csIsSpace
  | fuel + 1, l =>
    if (l.dropWhile csIsSpace).take 2 = ['/', '/'] then
      skipToNextF fuel (skipLineComment ((l.dropWhile csIsSpace).drop 2))
    else if (l.dropWhile csIsSpace).take 2 = ['/', '*'] then
      skipToNextF fuel (skipBlockComment ((l.dropWhile csIsSpace).drop 2))
    else l.dropWhile csIsSpace

/-- `Token::skipToNext`. -/
def skipToNext (l : List Char) : List Char := skipToNextF (l.length + 1) l

/-- The escape switch inside the string-literal case of `Token::pull`:
the escapes the lexer knows. -/
def unescape (e : Char) : Option Char :=
  if e = 'n' then some chNL
  else if e = 'r' then some chCR
  else if e = 't' then some chTab
  else if e = chQuote then some chQuote
  else if e = chApos then some chApos
  else if e = chBackslash then some chBackslash
  else if e = chLBrace then some chLBrace
  else none

/-- The string-literal loop of `Token::pull`, run after the opening quote has
been consumed.  Returns the accumulated contents, the rest of the input and
the number of warnings emitted, or `none` for the hard error "Expected escaped
character, found end-of-file" (a NUL byte after a backslash reads as 0 from
`Stream::next` and takes the same error path).  Note the loop header
`while (auto c = stream.next())`: reaching EOF (or a NUL byte, which is
consumed) simply ends the loop and the token is produced SUCCESSFULLY — an
unterminated string is not an error in this code.  An unknown escape warns and
appends nothing, dropping both the backslash and the escaped character. -/
def scanString : List Char → Option (List Char × List Char × Nat)
  | [] => some ([], [], 0)
  | c :: rest =>
    if c = chBackslash then
      match rest with
      | [] => none
      | e :: rest' =>
        if e = chNul then none
        else
          match unescape e with
          | some ch => (scanString rest').map (fun r => (ch :: r.1, r.2.1, r.2.2))
          | none => (scanString rest').map (fun r => (r.1, r.2.1, r.2.2 + 1))
    else if c = chQuote then some ([], rest, 0)
    else if c = chNul then some ([], rest, 0)
    else (scanString rest).map (fun r => (c :: r.1, r.2.1, r.2.2))

/-- The number-literal loop of `Token::pull`: one run of digits with at most
one `.`.  Returns the lexeme, whether a dot was found, and the rest. -/
def scanNumber : List Char → Bool → List Char × Bool × List Char
  | [], foundDot => ([], foundDot, [])
  | c :: rest, foundDot =>
    if isDigitCh c then
      let r := scanNumber rest foundDot
      (c :: r.1, r.2.1, r.2.2)
    else if !foundDot && c = '.' then
      let r := scanNumber rest true
      (c :: r.1, r.2.1, r.2.2)
    else ([], foundDot, c :: rest)

/-- Value of a digit string, as `std::stoul` computes it. -/
def natOfDigits (num : List Char) : Nat :=
  num.foldl (fun a c => a * 10 + (c.toNat - 48)) 0

/-- `Token::pull` on the remaining input alone: returns the result, the
remaining input afterwards, and the number of warnings emitted.  On error the
remaining input is the position recorded by the `Rollback` frame, i.e. the
input AFTER the initial `skipToNext` (which runs before the frame is opened),
and buffered warnings are discarded (count 0).  `std::stoul` throws for values
over `2^64 - 1` ("Invalid integer literal"); `std::stod` failure (only
possible for absurdly long lexemes) is not modelled, so the float branch
always succeeds here. -/
def pullTokAfterSkip (l : List Char) : Except String Token × List Char × Nat :=
  match l with
  | [] => (Except.error "Expected token, found end-of-file", [], 0)
  | c :: rest =>
    if c = chQuote then
      match scanString rest with
      | none => (Except.error "Expected escaped character, found end-of-file", c :: rest, 0)
      | some (lit, r, w) => (Except.ok (Token.lit (Lit.str lit)), r, w)
    else if isDigitCh c then
      match scanNumber (c :: rest) false with
      | (num, true, r) => (Except.ok (Token.lit (Lit.float num)), r, 0)
      | (num, false, r) =>
        if natOfDigits num < 2 ^ 64 then
          (Except.ok (Token.lit (Lit.int (natOfDigits num))), r, 0)
        else (Except.error "Invalid integer literal", c :: rest, 0)
    else
      if (c :: rest).takeWhile isIdentCh = [] then
        match opFromString ((c :: rest).takeWhile isOpCh) with
        | some o => (Except.ok (Token.op o), (c :: rest).dropWhile isOpCh, 0)
        | none =>
          if PUNCTUATION.contains c then (Except.ok (Token.punct c), rest, 0)
          else (Except.error "Invalid operator", c :: rest, 0)
      else if (c :: rest).takeWhile isIdentCh = "true".toList then
        (Except.ok (Token.lit (Lit.bool true)), (c :: rest).dropWhile isIdentCh, 0)
      else if (c :: rest).takeWhile isIdentCh = "false".toList then
        (Except.ok (Token.lit (Lit.bool false)), (c :: rest).dropWhile isIdentCh, 0)
      else if (c :: rest).takeWhile isIdentCh = "void".toList then
        (Except.ok (Token.lit Lit.void), (c :: rest).dropWhile isIdentCh, 0)
      else
        match kwFromString ((c :: rest).takeWhile isIdentCh) with
        | some k => (Except.ok (Token.kw k), (c :: rest).dropWhile isIdentCh, 0)
        | none =>
          if isIdent ((c :: rest).takeWhile isIdentCh) then
            (Except.ok (Token.ident ((c :: rest).takeWhile isIdentCh)), (c :: rest).dropWhile isIdentCh, 0)
          else (Except.error "Invalid keyword or identifier", c :: rest, 0)

def pullTokCore (rem : List Char) : Except String Token × List Char × Nat :=
  pullTokAfterSkip (skipToNext rem)

/-- `Token::pull` on a `Stream`: on success the `done` lambda commits the
rollback frame, promotes buffered warnings, and records the last-token memo;
on error the frame's destructor restores the cursor and drops buffered
diagnostics, but the memo is not part of the frame and keeps its value. -/
def pullTok (s : Stream) : Except String Token × Stream :=
  match pullTokCore s.rem with
  | (Except.ok tk, r, w) => (Except.ok tk, ⟨r, some tk, s.warns + w⟩)
  | (Except.error e, r, _) => (Except.error e, ⟨r, s.last, s.warns⟩)

def isOkE {α : Type} : Except String α → Bool
  | Except.ok _ => true
  | Except.error _ => false

instance {ε α : Type} [DecidableEq ε] [DecidableEq α] : DecidableEq (Except ε α) :=
  fun x y =>
    match x, y with
    | Except.ok a, Except.ok b =>
      if h : a = b then isTrue (by rw [h]) else isFalse (fun hh => by cases hh; exact h rfl)
    | Except.error a, Except.error b =>
      if h : a = b then isTrue (by rw [h]) else isFalse (fun hh => by cases hh; exact h rfl)
    | Except.ok _, Except.error _ => isFalse (fun hh => by cases hh)
    | Except.error _, Except.ok _ => isFalse (fun hh => by cases hh)

/-- Decimal printing of a `u64` (`geode::utils::numToString` on `IntLit`). -/
def DIGITS : List Char := "0123456789".toList

def digitChar (d : Nat) : Char := DIGITS.getD d '0'

def natToDigits (n : Nat) : List Char :=
  if n = 0 then ['0'] else ((Nat.digits 10 n).map digitChar).reverse

/-- `tokenToString(…, debug=false)` from Token.cpp for every token variant.
Keywords and operators print their spelling, identifiers and STRING LITERALS
print their raw contents (no quotes!), punctuation prints its character,
void/bool literals their spelling, integers their decimal digits.  Floats
print `numToString(f64)`, which is not modelled (the lexeme stands in); float
tokens are excluded from every theorem that relies on this function. -/
def tokenToString : Token → List Char
  | Token.kw k => kwStr k
  | Token.ident s => s
  | Token.lit Lit.void => "void".toList
  | Token.lit (Lit.bool b) => if b then "true".toList else "false".toList
  | Token.lit (Lit.str s) => s
  | Token.lit (Lit.int n) => natToDigits n
  | Token.lit (Lit.float m) => m
  | Token.op o => opStr o
  | Token.punct c => [c]

/-- Tokens the lexer can actually produce: identifier tokens carry a valid
identifier other than `void` (pulled as the void literal), keyword tokens are
never `true`/`false` (pulled as bool literals before the keyword table is
consulted), integer literals fit in a `u64`, punctuation tokens are
punctuation characters. -/
def wfToken : Token → Prop
  | Token.kw k => k ≠ Keyword.True ∧ k ≠ Keyword.False
  | Token.ident s => isIdent s = true ∧ s ≠ "void".toList
  | Token.lit (Lit.int n) => n < 2 ^ 64
  | Token.punct c => c ∈ PUNCTUATION
  | _ => True

/-- The input used by the round-trip property: the printed token surrounded by
whitespace. -/
def roundTripInput (t : Token) : Stream :=
  ⟨' ' :: (tokenToString t ++ [' ']), none, 0⟩

def resultKind : Except String Token → Option TokKind
  | Except.ok tk => some (kindOf tk)
  | Except.error _ => none

/-- Is the next token a `;`?  (Depends only on the remaining input.) -/
def nextIsSemi (rem : List Char) : Bool :=
  match (pullTokCore rem).1 with
  | Except.ok tk => tk == Token.punct ';'
  | Except.error _ => false

/-- Modelled from the spec: `Token::draw(';', stream)` — consume the next
token if it is a `;`, else leave the stream unchanged (the template lives in
the missing Token.hpp; spec §4.2: "consume if the next token matches, else
leave unchanged").  As with every rollback, the last-token memo set by the
inner `Token::pull` survives. -/
def drawSemi (s : Stream) : Bool × Stream :=
  match pullTok s with
  | (Except.ok tk, s') =>
    if tk = Token.punct ';' then (true, s')
    else (false, ⟨s.rem, s'.last, s.warns⟩)
  | (Except.error _, s') => (false, ⟨s.rem, s'.last, s.warns⟩)

/-- The `while (Token::draw(';', stream)) {}` loop of `Token::pullSemicolons`.
Each successful draw consumes at least the semicolon byte, so the
`rem.length + 1` fuel used by `eatSemis` is always sufficient. -/
def eatSemisF : Nat → Stream → Stream
  | 0, s => s
  | fuel + 1, s =>
    if (drawSemi s).1 then eatSemisF fuel (drawSemi s).2 else (drawSemi s).2

def eatSemis (s : Stream) : Stream := eatSemisF (s.rem.length + 1) s

/-- Modelled from the spec: `Token::pull(';', stream)` — expect-or-error (the
template lives in the missing Token.hpp; spec §4.2).  On a mismatch or lex
error the rollback restores the cursor and warnings; the memo survives. -/
def pullExpectSemi (s : Stream) : Except String Unit × Stream :=
  match pullTok s with
  | (Except.ok tk, s') =>
    if tk = Token.punct ';' then (Except.ok (), s')
    else (Except.error "Expected semicolon", ⟨s.rem, s'.last, s.warns⟩)
  | (Except.error e, s') => (Except.error e, ⟨s.rem, s'.last, s.warns⟩)

/-- `Token::pullSemicolons` from Token.cpp (lines 181–194): if the last-token
memo is `}`, semicolons are optional; otherwise expect at least one `;`;
in either case consume every following consecutive `;`. -/
def pullSemicolons (s : Stream) : Except String Unit × Stream :=
  if s.last = some (Token.punct chRBrace) then
    (Except.ok (), eatSemis s)
  else
    match pullExpectSemi s with
    | (Except.ok _, s') => (Except.ok (), eatSemis s')
    | (Except.error e, s') => (Except.error e, s')

/-- The statement loop of `AST::pull` (AST.cpp lines 263–277), with
`Expr::pull` (not part of src/) abstracted as `g`.  Each iteration pulls an
expression, then semicolons, then peeks: if no token can be pulled the loop
breaks successfully, otherwise it continues (the peek restores the cursor but
updates the memo).  `fuel` plays the role of the `debugTick` liveness check:
the C++ aborts a parser that stops consuming input; a `g` that consumes on
success never reaches the fuel-exhaustion branch with the fuel `astPull`
supplies. -/
def astPullGo (g : Stream → Except String Unit × Stream) :
    Nat → Stream → Except String Unit × Stream
  | 0, s => (Except.error "Internal error: parser loop detected", s)
  | fuel + 1, s =>
    match g s with
    | (Except.error e, s') => (Except.error e, s')
    | (Except.ok _, s') =>
      match pullSemicolons s' with
      | (Except.error e, s'') => (Except.error e, s'')
      | (Except.ok _, s'') =>
        match pullTok s'' with
        | (Except.ok _, sp) => astPullGo g fuel ⟨s''.rem, sp.last, s''.warns⟩
        | (Except.error _, _) => (Except.ok (), s'')

/-- `AST::pull`: `Token::skipToNext` runs BEFORE the rollback frame is opened;
on error the frame restores the cursor to the post-skip position and discards
buffered diagnostics (the memo survives). -/
def astPull (g : Stream → Except String Unit × Stream) (s : Stream) :
    Except String Unit × Stream :=
  match astPullGo g ((skipToNext s.rem).length + 1) ⟨skipToNext s.rem, s.last, s.warns⟩ with
  | (Except.ok u, s') => (Except.ok u, s')
  | (Except.error e, s') => (Except.error e, ⟨skipToNext s.rem, s'.last, s.warns⟩)

/- ------------------------------------------------------------------
Typechecking side: UnitParser scope stack, ParsedSrc exports, entities.
------------------------------------------------------------------ -/

/-- The primitive types of the consumed Type interface (spec §4.6). -/
inductive Ty
  | Void | Bool | Int | Float | Str | Unk
deriving DecidableEq

/-- A scope frame of the UnitParser (spec §4.5): an optional label and a
function-boundary flag (the namespace and `using` lists play no role in the
claims below). -/
structure Scope where
  label : Option String
  isFunctionBoundary : Bool
deriving DecidableEq

/-- A named entity as seen by the export machinery: its full identifier path
and the optional type `Entity::getType()` reports. -/
structure EntityRef where
  path : List String
  ty : Option Ty
deriving DecidableEq

/-- UnitParser + ParsedSrc state: the scope stack (innermost first; the root
scope is the single bottom element), the exports table, and the number of
error diagnostics routed to the sink. -/
structure UnitParserSt where
  scopes : List Scope
  exports : List EntityRef
  errs : Nat
deriving DecidableEq

/-- Modelled from the spec: `UnitParser::pushScope` (spec §4.5). -/
def pushScope (label : Option String) (fb : Bool) (st : UnitParserSt) : UnitParserSt :=
  { st with scopes := ⟨label, fb⟩ :: st.scopes }

/-- Modelled from the spec: `UnitParser::popScope` (spec §4.5). -/
def popScope (st : UnitParserSt) : UnitParserSt :=
  { st with scopes := st.scopes.tail }

/-- Modelled from the spec: `UnitParser::isRootScope` — only the root scope is
on the stack (spec §4.5, §3 invariant 5). -/
def isRootScope (st : UnitParserSt) : Bool :=
  st.scopes.length = 1

/-- `UnitParser::error`: route an error diagnostic to the sink. -/
def recordError (st : UnitParserSt) : UnitParserSt :=
  { st with errs := st.errs + 1 }

/-- Modelled from the spec: `ParsedSrc::addExported` deduplicates by full path
(spec §4.5); its code (State.cpp) is not in src/. -/
def addExported (st : UnitParserSt) (e : EntityRef) : UnitParserSt :=
  if st.exports.any (fun x => x.path == e.path) then st
  else { st with exports := st.exports ++ [e] }

/-- `ExportExpr::typecheck` from AST.cpp (lines 41–53), with the virtual
`expr->typecheckEntity(state)` abstracted as `tcEnt`.  Note the control flow
of the source: when the expression resolves to an entity the function adds the
export and RETURNS IMMEDIATELY — the `isRootScope` check below it is reached
only on the no-entity path. -/
def exportExprTypecheck (tcEnt : UnitParserSt → Option EntityRef × UnitParserSt)
    (st : UnitParserSt) : Ty × UnitParserSt :=
  match tcEnt st with
  | (some ent, st') => (ent.ty.getD Ty.Unk, addExported st' ent)
  | (none, st') =>
    let st₁ := recordError st'
    let st₂ := if isRootScope st₁ then st₁ else recordError st₁
    (Ty.Unk, st₂)

/-- `BlockExpr::typecheck` from AST.cpp (lines 204–210), with the inner
`ListExpr`'s typecheck abstracted as `inner`: push one scope, typecheck the
inner list, pop one scope, return the inner type. -/
def blockExprTypecheck (inner : UnitParserSt → Ty × UnitParserSt)
    (st : UnitParserSt) : Ty × UnitParserSt :=
  ((inner (pushScope none false st)).1, popScope (inner (pushScope none false st)).2)

/-- A namespace's name → entities multimap (spec §4.4), entity payload
abstract. -/
structure NamespaceSt (α : Type) where
  entities : List (String × α)

/-- Modelled from the spec: `Namespace::pushEntity` appends to the multimap
with no duplicate check (spec §4.4); its code (Entity.cpp) is not in src/. -/
def pushEntity {α : Type} (name : String) (e : α) (ns : NamespaceSt α) : NamespaceSt α :=
  ⟨ns.entities ++ [(name, e)]⟩

/-- All entities registered under a name. -/
def getEntities {α : Type} (name : String) (ns : NamespaceSt α) : List α :=
  (ns.entities.filter (fun p => p.1 == name)).map (fun p => p.2)

/-- `Namespace::makeEntity<T>` from Entity.hpp (lines 154–169): construct the
entity (the constructor receives `shared_from_this()`, i.e. the namespace as
it is before insertion), call its `applyTypeDefinition` hook (which may read
and update both the entity and the namespace through the back-reference), and
only then insert the resulting entity with `pushEntity`. -/
def makeEntity {α : Type} (ctor : NamespaceSt α → α)
    (applyTypeDefinition : α → NamespaceSt α → α × NamespaceSt α)
    (name : String) (ns : NamespaceSt α) : α × NamespaceSt α :=
  let e := ctor ns
  let r := applyTypeDefinition e ns
  (r.1, pushEntity name r.1 r.2)

/-- An always-failing expression parser, used to instantiate `astPull`. -/
def gFail : Stream → Except String Unit × Stream :=
  fun s => (Except.error "no expression", s)

/- ------------------------------------------------------------------
Support lemmas.
------------------------------------------------------------------ -/

lemma length_dropWhileP (p : Char → Bool) (l : List Char) :
    (l.dropWhile p).length ≤ l.length := by
  induction l with
  | nil => simp
  | cons c rest ih =>
    rw [List.dropWhile_cons]
    split
    · exact Nat.le_succ_of_le ih
    · simp

lemma takeWhile_all_append (p : Char → Bool) (l : List Char) (d : Char) (r : List Char)
    (hl : ∀ c ∈ l, p c = true) (hd : p d = false) :
    (l ++ d :: r).takeWhile p = l := by
  induction l with
  | nil => simp [List.takeWhile_cons, hd]
  | cons c rest ih =>
    have hc : p c = true := hl c (by simp)
    simp only [List.cons_append, List.takeWhile_cons, hc, if_true]
    rw [ih (fun x hx => hl x (by simp [hx]))]

lemma dropWhile_all_append (p : Char → Bool) (l : List Char) (d : Char) (r : List Char)
    (hl : ∀ c ∈ l, p c = true) (hd : p d = false) :
    (l ++ d :: r).dropWhile p = d :: r := by
  induction l with
  | nil => simp [List.dropWhile_cons, hd]
  | cons c rest ih =>
    have hc : p c = true := hl c (by simp)
    simp only [List.cons_append, List.dropWhile_cons, hc, if_true]
    exact ih (fun x hx => hl x (by simp [hx]))

lemma skipLineComment_length_le (l : List Char) :
    (skipLineComment l).length ≤ l.length := by
  induction l with
  | nil => simp [skipLineComment]
  | cons c rest ih =>
    rw [skipLineComment]
    split
    · simp
    · exact Nat.le_succ_of_le ih

lemma skipBlockComment_length_le (l : List Char) :
    (skipBlockComment l).length ≤ l.length := by
  induction l using skipBlockComment.induct <;>
    simp_all [skipBlockComment] <;> split <;> simp_all <;> omega

lemma skipToNextF_length_le (fuel : Nat) (l : List Char) :
    (skipToNextF fuel l).length ≤ l.length := by
  induction fuel generalizing l with
  | zero => simpa [skipToNextF] using length_dropWhileP csIsSpace l
  | succ fuel ih =>
    have hdw := length_dropWhileP csIsSpace l
    have hdr : ((l.dropWhile csIsSpace).drop 2).length = (l.dropWhile csIsSpace).length - 2 := by
      simp
    rw [skipToNextF]
    split
    · have h₁ := ih (skipLineComment ((l.dropWhile csIsSpace).drop 2))
      have h₂ := skipLineComment_length_le ((l.dropWhile csIsSpace).drop 2)
      omega
    · split
      · have h₁ := ih (skipBlockComment ((l.dropWhile csIsSpace).drop 2))
        have h₂ := skipBlockComment_length_le ((l.dropWhile csIsSpace).drop 2)
        omega
      · exact hdw

lemma skipToNext_length_le (l : List Char) : (skipToNext l).length ≤ l.length :=
  skipToNextF_length_le _ l

lemma chQB : ¬chQuote = chBackslash := by decide

lemma chNB : ¬chNul = chBackslash := by decide

lemma chNQ : ¬chNul = chQuote := by decide

lemma scanString_rest_le : ∀ (n : Nat) (l : List Char), l.length ≤ n →
    ∀ a r w, scanString l = some (a, r, w) → r.length ≤ l.length := by
  intro n
  induction n with
  | zero =>
    intro l hl a r w h
    have hnil : l = [] := List.eq_nil_of_length_eq_zero (Nat.le_zero.mp hl)
    subst hnil
    have heval : scanString [] = some ([], [], 0) := by simp [scanString]
    rw [heval] at h
    injection h with h1
    have hr2 : ([] : List Char) = r := congrArg (fun t => t.2.1) h1
    rw [← hr2]
  | succ n ih =>
    intro l hl a r w h
    cases l with
    | nil =>
      have heval : scanString [] = some ([], [], 0) := by simp [scanString]
      rw [heval] at h
      injection h with h1
      have hr2 : ([] : List Char) = r := congrArg (fun t => t.2.1) h1
      rw [← hr2]
    | cons c rest =>
      cases rest with
      | nil =>
        by_cases hb : c = chBackslash
        · subst hb
          have heval : scanString [chBackslash] = none := by simp [scanString]
          rw [heval] at h
          simp at h
        · by_cases hq : c = chQuote
          · subst hq
            have heval : scanString [chQuote] = some ([], [], 0) := by
              simp [scanString, chQB]
            rw [heval] at h
            injection h with h1
            have hr2 : ([] : List Char) = r := congrArg (fun t => t.2.1) h1
            rw [← hr2]
            simp
          · by_cases h0 : c = chNul
            · subst h0
              have heval : scanString [chNul] = some ([], [], 0) := by
                simp [scanString, chNB, chNQ]
              rw [heval] at h
              injection h with h1
              have hr2 : ([] : List Char) = r := congrArg (fun t => t.2.1) h1
              rw [← hr2]
              simp
            · have heval : scanString [c] = some ([c], [], 0) := by
                simp [scanString, hb, hq, h0]
              rw [heval] at h
              injection h with h1
              have hr2 : ([] : List Char) = r := congrArg (fun t => t.2.1) h1
              rw [← hr2]
              simp
      | cons e rest' =>
        by_cases hb : c = chBackslash
        · subst hb
          by_cases he : e = chNul
          · have heval : scanString (chBackslash :: e :: rest') = none := by
              simp [scanString, he]
            rw [heval] at h
            simp at h
          · have hlen : rest'.length ≤ n := by simp at hl; omega
            rcases hq2 : scanString rest' with _ | ⟨⟨qa, qr, qw⟩⟩
            · rcases hu : unescape e with _ | ch
              · have heval : scanString (chBackslash :: e :: rest') = none := by
                  simp [scanString, he, hu, hq2]
                rw [heval] at h
                simp at h
              · have heval : scanString (chBackslash :: e :: rest') = none := by
                  simp [scanString, he, hu, hq2]
                rw [heval] at h
                simp at h
            · have hih := ih rest' hlen qa qr qw hq2
              rcases hu : unescape e with _ | ch
              · have heval : scanString (chBackslash :: e :: rest')
                    = some (qa, qr, qw + 1) := by
                  simp [scanString, he, hu, hq2]
                rw [heval] at h
                injection h with h1
                have hr2 : qr = r := congrArg (fun t => t.2.1) h1
                rw [← hr2]
                simp only [List.length_cons]
                omega
              · have heval : scanString (chBackslash :: e :: rest')
                    = some (ch :: qa, qr, qw) := by
                  simp [scanString, he, hu, hq2]
                rw [heval] at h
                injection h with h1
                have hr2 : qr = r := congrArg (fun t => t.2.1) h1
                rw [← hr2]
                simp only [List.length_cons]
                omega
        · by_cases hq : c = chQuote
          · subst hq
            have heval : scanString (chQuote :: e :: rest') = some ([], e :: rest', 0) := by
              simp [scanString, chQB]
            rw [heval] at h
            injection h with h1
            have hr2 : e :: rest' = r := congrArg (fun t => t.2.1) h1
            rw [← hr2]
            simp only [List.length_cons]
            omega
          · by_cases h0 : c = chNul
            · subst h0
              have heval : scanString (chNul :: e :: rest') = some ([], e :: rest', 0) := by
                simp [scanString, chNB, chNQ]
              rw [heval] at h
              injection h with h1
              have hr2 : e :: rest' = r := congrArg (fun t => t.2.1) h1
              rw [← hr2]
              simp only [List.length_cons]
              omega
            · have hlen : (e :: rest').length ≤ n := by
                simp only [List.length_cons] at hl ⊢
                omega
              rcases hq2 : scanString (e :: rest') with _ | ⟨⟨qa, qr, qw⟩⟩
              · have heval : scanString (c :: e :: rest') = none := by
                  simp [scanString, hb, hq, h0, hq2]
                rw [heval] at h
                simp at h
              · have hih := ih (e :: rest') hlen qa qr qw hq2
                have heval : scanString (c :: e :: rest') = some (c :: qa, qr, qw) := by
                  simp [scanString, hb, hq, h0, hq2]
                rw [heval] at h
                injection h with h1
                have hr2 : qr = r := congrArg (fun t => t.2.1) h1
                rw [← hr2]
                simp only [List.length_cons] at hih ⊢
                omega

lemma scanNumber_rest_le (l : List Char) (fd : Bool) :
    (scanNumber l fd).2.2.length ≤ l.length := by
  induction l generalizing fd with
  | nil => simp [scanNumber]
  | cons c rest ih =>
    rw [scanNumber]
    split
    · exact Nat.le_succ_of_le (ih fd)
    · split
      · exact Nat.le_succ_of_le (ih true)
      · simp

/-- Case analysis of the post-skip body of `Token::pull`: either it succeeds
and strictly consumes input, or it fails and the rollback frame leaves the
cursor exactly where `skipToNext` put it. -/
lemma pullTokAfterSkip_spec (l : List Char) :
    (∃ tk r w, pullTokAfterSkip l = (Except.ok tk, r, w) ∧ r.length < l.length)
    ∨ ∃ e, pullTokAfterSkip l = (Except.error e, l, 0) := by
  cases l with
  | nil => right; exact ⟨_, rfl⟩
  | cons c rest =>
    simp only [pullTokAfterSkip]
    by_cases hq : c = chQuote
    · rw [if_pos hq]
      rcases hss : scanString rest with _ | ⟨⟨lit, r, w⟩⟩
      · right; exact ⟨_, rfl⟩
      · left
        have := scanString_rest_le rest.length rest (Nat.le_refl _) lit r w hss
        refine ⟨_, _, _, rfl, ?_⟩
        simp only [List.length_cons]
        omega
    rw [if_neg hq]
    by_cases hd : isDigitCh c = true
    · rw [if_pos hd]
      rcases hsn : scanNumber (c :: rest) false with ⟨num, fd, r⟩
      have hr : r.length ≤ rest.length := by
        have h1 : (scanNumber (c :: rest) false).2.2.length ≤ rest.length := by
          rw [scanNumber, if_pos hd]
          simpa using scanNumber_rest_le rest false
        rw [hsn] at h1
        simpa using h1
      cases fd with
      | true =>
        left
        refine ⟨_, _, _, rfl, ?_⟩
        simp only [List.length_cons]
        omega
      | false =>
        by_cases hlt : natOfDigits num < 2 ^ 64
        · rw [show (match (num, false, r) with
              | (num, true, r) => (Except.ok (Token.lit (Lit.float num)), r, 0)
              | (num, false, r) =>
                if natOfDigits num < 2 ^ 64 then
                  (Except.ok (Token.lit (Lit.int (natOfDigits num))), r, 0)
                else (Except.error "Invalid integer literal", c :: rest, 0))
              = (Except.ok (Token.lit (Lit.int (natOfDigits num))), r, 0) from
            if_pos hlt]
          left
          refine ⟨_, _, _, rfl, ?_⟩
          simp only [List.length_cons]
          omega
        · rw [show (match (num, false, r) with
              | (num, true, r) => (Except.ok (Token.lit (Lit.float num)), r, 0)
              | (num, false, r) =>
                if natOfDigits num < 2 ^ 64 then
                  (Except.ok (Token.lit (Lit.int (natOfDigits num))), r, 0)
                else (Except.error "Invalid integer literal", c :: rest, 0))
              = (Except.error "Invalid integer literal", c :: rest, 0) from
            if_neg hlt]
          right
          exact ⟨_, rfl⟩
    rw [if_neg hd]
    by_cases hi : (c :: rest).takeWhile isIdentCh = []
    · rw [if_pos hi]
      rcases hop : opFromString ((c :: rest).takeWhile isOpCh) with _ | o
      · by_cases hp : PUNCTUATION.contains c = true
        · rw [if_pos hp]
          left
          refine ⟨_, _, _, rfl, ?_⟩
          simp only [List.length_cons]
          omega
        · rw [if_neg hp]
          right
          exact ⟨_, rfl⟩
      · left
        refine ⟨_, _, _, rfl, ?_⟩
        have hcop : isOpCh c = true := by
          by_contra hcop
          simp only [Bool.not_eq_true] at hcop
          rw [List.takeWhile_cons, if_neg (by simp [hcop])] at hop
          simp [opFromString, OPS, allOps, opStr, opInfo] at hop
        rw [List.dropWhile_cons, if_pos hcop]
        have := length_dropWhileP isOpCh rest
        simp only [List.length_cons]
        omega
    · rw [if_neg hi]
      have hic : isIdentCh c = true := by
        by_contra hic
        simp only [Bool.not_eq_true] at hic
        rw [List.takeWhile_cons, if_neg (by simp [hic])] at hi
        exact hi rfl
      have hlen : ((c :: rest).dropWhile isIdentCh).length < (c :: rest).length := by
        rw [List.dropWhile_cons, if_pos hic]
        have := length_dropWhileP isIdentCh rest
        simp only [List.length_cons]
        omega
      by_cases ht : (c :: rest).takeWhile isIdentCh = "true".toList
      · rw [if_pos ht]
        left
        exact ⟨_, _, _, rfl, hlen⟩
      rw [if_neg ht]
      by_cases hf : (c :: rest).takeWhile isIdentCh = "false".toList
      · rw [if_pos hf]
        left
        exact ⟨_, _, _, rfl, hlen⟩
      rw [if_neg hf]
      by_cases hv : (c :: rest).takeWhile isIdentCh = "void".toList
      · rw [if_pos hv]
        left
        exact ⟨_, _, _, rfl, hlen⟩
      rw [if_neg hv]
      rcases hkw : kwFromString ((c :: rest).takeWhile isIdentCh) with _ | k
      · by_cases hii : isIdent ((c :: rest).takeWhile isIdentCh) = true
        · rw [if_pos hii]
          left
          exact ⟨_, _, _, rfl, hlen⟩
        · rw [if_neg hii]
          right
          exact ⟨_, rfl⟩
      · left
        exact ⟨_, _, _, rfl, hlen⟩

/-- Lift of the case analysis through the initial `skipToNext`. -/
lemma pullTokCore_spec (rem : List Char) :
    (∃ tk r w, pullTokCore rem = (Except.ok tk, r, w) ∧ r.length < (skipToNext rem).length)
    ∨ ∃ e, pullTokCore rem = (Except.error e, skipToNext rem, 0) :=
  pullTokAfterSkip_spec (skipToNext rem)

lemma pullTokCore_err (rem : List Char)
    (h : isOkE (pullTokCore rem).1 = false) :
    (pullTokCore rem).2.1 = skipToNext rem := by
  rcases pullTokCore_spec rem with ⟨tk, r, w, heq, _⟩ | ⟨e, heq⟩
  · rw [heq] at h; simp [isOkE] at h
  · rw [heq]

lemma pullTokCore_ok_lt (rem : List Char)
    (h : isOkE (pullTokCore rem).1 = true) :
    (pullTokCore rem).2.1.length < rem.length := by
  rcases pullTokCore_spec rem with ⟨tk, r, w, heq, hl⟩ | ⟨e, heq⟩
  · rw [heq]
    have := skipToNext_length_le rem
    simp only []
    omega
  · rw [heq] at h; simp [isOkE] at h

lemma pullTok_fst (s : Stream) : (pullTok s).1 = (pullTokCore s.rem).1 := by
  unfold pullTok
  rcases h : pullTokCore s.rem with ⟨res, r, w⟩
  cases res <;> simp

lemma pullTok_err_rem (s : Stream) (h : isOkE (pullTok s).1 = false) :
    (pullTok s).2.rem = skipToNext s.rem := by
  rw [pullTok_fst] at h
  have h2 := pullTokCore_err s.rem h
  unfold pullTok
  rcases heq : pullTokCore s.rem with ⟨res, r, w⟩
  cases res with
  | ok tk => rw [heq] at h; simp [isOkE] at h
  | error e =>
    rw [heq] at h2
    simpa using h2

lemma pullTok_ok_lt (s : Stream) (h : isOkE (pullTok s).1 = true) :
    (pullTok s).2.rem.length < s.rem.length := by
  rw [pullTok_fst] at h
  have h2 := pullTokCore_ok_lt s.rem h
  unfold pullTok
  rcases heq : pullTokCore s.rem with ⟨res, r, w⟩
  cases res with
  | ok tk =>
    rw [heq] at h2
    simpa using h2
  | error e => rw [heq] at h; simp [isOkE] at h

lemma drawSemi_fst (s : Stream) : (drawSemi s).1 = nextIsSemi s.rem := by
  unfold drawSemi nextIsSemi
  rw [← pullTok_fst s]
  rcases h : pullTok s with ⟨res, s'⟩
  cases res with
  | ok tk =>
    by_cases htk : tk = Token.punct ';'
    · simp [htk]
    · simp [htk]
  | error e => simp

lemma drawSemi_true_lt (s : Stream) (h : (drawSemi s).1 = true) :
    (drawSemi s).2.rem.length < s.rem.length := by
  unfold drawSemi at h ⊢
  rcases hp : pullTok s with ⟨res, s'⟩
  have hok := pullTok_ok_lt s
  rw [hp] at hok
  cases res with
  | ok tk =>
    by_cases htk : tk = Token.punct ';'
    · have h2 := hok (by simp [isOkE])
      simpa [htk] using h2
    · rw [hp] at h
      simp [htk] at h
  | error e =>
    rw [hp] at h
    simp at h

lemma drawSemi_false_rem (s : Stream) (h : (drawSemi s).1 = false) :
    (drawSemi s).2.rem = s.rem := by
  unfold drawSemi at h ⊢
  rcases hp : pullTok s with ⟨res, s'⟩
  cases res with
  | ok tk =>
    by_cases htk : tk = Token.punct ';'
    · rw [hp] at h
      simp [htk] at h
    · simp [htk]
  | error e => rfl

lemma eatSemisF_le (fuel : Nat) (s : Stream) :
    (eatSemisF fuel s).rem.length ≤ s.rem.length := by
  induction fuel generalizing s with
  | zero => simp [eatSemisF]
  | succ fuel ih =>
    rw [eatSemisF]
    by_cases hb : (drawSemi s).1 = true
    · rw [if_pos hb]
      have h1 := ih (drawSemi s).2
      have h2 := drawSemi_true_lt s hb
      omega
    · rw [if_neg hb]
      rw [drawSemi_false_rem s (by simpa using hb)]

lemma eatSemisF_no_semi (fuel : Nat) (s : Stream) (h : s.rem.length < fuel) :
    nextIsSemi ((eatSemisF fuel s).rem) = false := by
  induction fuel generalizing s with
  | zero => omega
  | succ fuel ih =>
    rw [eatSemisF]
    by_cases hb : (drawSemi s).1 = true
    · rw [if_pos hb]
      have h2 := drawSemi_true_lt s hb
      exact ih (drawSemi s).2 (by omega)
    · rw [if_neg hb]
      rw [drawSemi_false_rem s (by simpa using hb)]
      rw [← drawSemi_fst s]
      simpa using hb

lemma eatSemis_no_semi (s : Stream) : nextIsSemi ((eatSemis s).rem) = false :=
  eatSemisF_no_semi _ s (Nat.lt_succ_self _)

lemma pullExpectSemi_fst (s : Stream) :
    isOkE (pullExpectSemi s).1 = nextIsSemi s.rem := by
  unfold pullExpectSemi nextIsSemi
  rw [← pullTok_fst s]
  rcases h : pullTok s with ⟨res, s'⟩
  cases res with
  | ok tk =>
    by_cases htk : tk = Token.punct ';'
    · simp [isOkE, htk]
    · simp [isOkE, htk]
  | error e => simp [isOkE]

lemma pullExpectSemi_err_rem (s : Stream)
    (h : isOkE (pullExpectSemi s).1 = false) :
    (pullExpectSemi s).2.rem = s.rem := by
  unfold pullExpectSemi at h ⊢
  rcases hp : pullTok s with ⟨res, s'⟩
  cases res with
  | ok tk =>
    by_cases htk : tk = Token.punct ';'
    · rw [hp] at h
      simp [isOkE, htk] at h
    · simp [htk]
  | error e => rfl

lemma ne_slash_take2 (c : Char) (rest : List Char) (hc : c ≠ '/') (d : Char) :
    ¬((c :: rest).take 2 = ['/', d]) := by
  cases rest with
  | nil =>
    rw [show ([c] : List Char).take 2 = [c] from rfl]
    simp
  | cons x xs =>
    rw [show (c :: x :: xs).take 2 = [c, x] from rfl]
    simp [hc]

/-- When the input starts with a non-space byte other than `/`,
`Token::skipToNext` consumes nothing. -/
lemma skipToNext_no_skip (c : Char) (rest : List Char)
    (hs : csIsSpace c = false) (hc : c ≠ '/') :
    skipToNext (c :: rest) = c :: rest := by
  have hdw : (c :: rest).dropWhile csIsSpace = c :: rest := by
    rw [List.dropWhile_cons, if_neg (by simp [hs])]
  rw [skipToNext, skipToNextF, hdw,
    if_neg (ne_slash_take2 c rest hc _), if_neg (ne_slash_take2 c rest hc _)]

lemma skipToNext_one_space (c : Char) (rest : List Char)
    (hs : csIsSpace c = false) (hc : c ≠ '/') :
    skipToNext (' ' :: c :: rest) = c :: rest := by
  have hdw : (' ' :: c :: rest).dropWhile csIsSpace = c :: rest := by
    rw [List.dropWhile_cons, if_pos (by decide), List.dropWhile_cons,
      if_neg (by simp [hs])]
  rw [skipToNext, skipToNextF, hdw,
    if_neg (ne_slash_take2 c rest hc _), if_neg (ne_slash_take2 c rest hc _)]

lemma isDigitCh_not_space (c : Char) (h : isDigitCh c = true) :
    csIsSpace c = false := by
  by_contra hc
  simp only [Bool.not_eq_false] at hc
  simp only [csIsSpace, Bool.or_eq_true, decide_eq_true_eq] at hc
  rcases hc with ((((h1 | h1) | h1) | h1) | h1) | h1 <;> subst h1 <;>
    exact absurd h (by decide)

lemma isDigitCh_ne_slash (c : Char) (h : isDigitCh c = true) : c ≠ '/' :=
  fun he => by subst he; exact absurd h (by decide)

lemma isDigitCh_ne_quote (c : Char) (h : isDigitCh c = true) : c ≠ chQuote :=
  fun he => by subst he; exact absurd h (by decide)

lemma isIdentCh_not_space (c : Char) (h : isIdentCh c = true) :
    csIsSpace c = false := by
  simp only [isIdentCh, Bool.and_eq_true, Bool.not_eq_true'] at h
  exact h.1.2

lemma isIdentCh_ne_slash (c : Char) (h : isIdentCh c = true) : c ≠ '/' :=
  fun he => by subst he; exact absurd h (by decide)

lemma isIdentCh_ne_quote (c : Char) (h : isIdentCh c = true) : c ≠ chQuote :=
  fun he => by subst he; exact absurd h (by decide)

lemma dv_digitChar (d : Nat) (hd : d < 10) : (digitChar d).toNat - 48 = d := by
  interval_cases d <;> decide

lemma natToDigits_ne_nil (n : Nat) : natToDigits n ≠ [] := by
  unfold natToDigits
  by_cases h0 : n = 0
  · rw [if_pos h0]; simp
  · rw [if_neg h0]
    simp [Nat.digits_ne_nil_iff_ne_zero, h0]

lemma natToDigits_digits (n : Nat) : ∀ c ∈ natToDigits n, isDigitCh c = true := by
  intro c hc
  unfold natToDigits at hc
  by_cases h0 : n = 0
  · rw [if_pos h0] at hc
    simp at hc
    subst hc
    decide
  · rw [if_neg h0] at hc
    simp only [List.mem_reverse, List.mem_map] at hc
    obtain ⟨d, hd, rfl⟩ := hc
    have hlt : d < 10 := Nat.digits_lt_base (by norm_num) hd
    interval_cases d <;> decide

lemma natOfDigits_append (xs : List Char) (c : Char) :
    natOfDigits (xs ++ [c]) = natOfDigits xs * 10 + (c.toNat - 48) := by
  unfold natOfDigits
  rw [List.foldl_append]
  rfl

lemma natOfDigits_natToDigits (n : Nat) : natOfDigits (natToDigits n) = n := by
  induction n using Nat.strong_induction_on with
  | _ n ih =>
    by_cases h0 : n = 0
    · subst h0; decide
    · by_cases h10 : n < 10
      · have hd : Nat.digits 10 n = [n] := by
          rw [Nat.digits_def' (by norm_num : (1 : ℕ) < 10) (Nat.pos_of_ne_zero h0)]
          rw [Nat.mod_eq_of_lt h10, Nat.div_eq_of_lt h10]
          simp
        unfold natToDigits
        rw [if_neg h0, hd]
        simp only [List.map_cons, List.map_nil, List.reverse_cons,
          List.reverse_nil, List.nil_append]
        unfold natOfDigits
        simp only [List.foldl_cons, List.foldl_nil]
        have := dv_digitChar n h10
        omega
      · have hpos : 0 < n := Nat.pos_of_ne_zero h0
        have hd : Nat.digits 10 n = (n % 10) :: Nat.digits 10 (n / 10) :=
          Nat.digits_def' (by norm_num) hpos
        have hdivpos : 0 < n / 10 :=
          Nat.div_pos (le_of_not_lt h10) (by norm_num)
        have hlt : n / 10 < n := Nat.div_lt_self hpos (by norm_num)
        have ihh := ih (n / 10) hlt
        unfold natToDigits at ihh ⊢
        rw [if_neg h0, hd]
        rw [if_neg (by omega : ¬n / 10 = 0)] at ihh
        simp only [List.map_cons, List.reverse_cons]
        rw [natOfDigits_append, ihh]
        have hm : n % 10 < 10 := Nat.mod_lt _ (by norm_num)
        have := dv_digitChar (n % 10) hm
        omega

lemma scanNumber_digits (l : List Char) (hl : ∀ c ∈ l, isDigitCh c = true) :
    scanNumber (l ++ [' ']) false = (l, false, [' ']) := by
  induction l with
  | nil =>
    rw [List.nil_append, scanNumber, if_neg (by decide), if_neg (by decide)]
  | cons d l' ih =>
    rw [List.cons_append, scanNumber, if_pos (hl d (by simp))]
    simp only [ih (fun x hx => hl x (by simp [hx]))]

/-- Evaluation of the post-skip `Token::pull` body on a valid identifier
followed by a space: the maximal ident run is taken and the identifier token
produced (valid identifiers are not keyword spellings; `void` is excluded by
hypothesis, `true`/`false` are keyword spellings). -/
lemma pullTokAfterSkip_ident (c : Char) (s' : List Char)
    (hid : isIdent (c :: s') = true) (hvoid : ¬(c :: s') = "void".toList) :
    pullTokAfterSkip (c :: (s' ++ [' '])) = (Except.ok (Token.ident (c :: s')), [' '], 0) := by
  have hid' := hid
  simp only [isIdent, Bool.and_eq_true, List.all_eq_true, Bool.not_eq_true'] at hid'
  obtain ⟨⟨hdig, hall⟩, hkwall⟩ := hid'
  have hic : isIdentCh c = true := hall c (by simp)
  have htw : (c :: (s' ++ [' '])).takeWhile isIdentCh = c :: s' := by
    have h := takeWhile_all_append isIdentCh (c :: s') ' ' [] hall (by decide)
    simpa using h
  have hdw : (c :: (s' ++ [' '])).dropWhile isIdentCh = [' '] := by
    have h := dropWhile_all_append isIdentCh (c :: s') ' ' [] hall (by decide)
    simpa using h
  have hkwnone : kwFromString (c :: s') = none := by
    unfold kwFromString
    rw [List.find?_eq_none.mpr ?_]
    · rfl
    · intro p hp
      have h := hkwall p hp
      simp only [bne_iff_ne, ne_eq] at h
      simp [h]
  have hne_true : ¬(c :: s' = "true".toList) := by
    have h := hkwall (Keyword.True, "true".toList) (by decide)
    simp only [bne_iff_ne, ne_eq] at h
    exact fun he => h he.symm
  have hne_false : ¬(c :: s' = "false".toList) := by
    have h := hkwall (Keyword.False, "false".toList) (by decide)
    simp only [bne_iff_ne, ne_eq] at h
    exact fun he => h he.symm
  simp only [pullTokAfterSkip]
  rw [if_neg (isIdentCh_ne_quote c hic), if_neg (by simp [hdig] : ¬isDigitCh c = true)]
  rw [htw, hdw]
  rw [if_neg (List.cons_ne_nil c s'), if_neg hne_true, if_neg hne_false,
    if_neg hvoid, hkwnone]
  simp [hid]

/-- Evaluation of the post-skip `Token::pull` body on the decimal digits of
a `u64` value followed by a space: the number path takes all the digits and
produces the integer literal back. -/
lemma pullTokAfterSkip_int (n : Nat) (hn : n < 2 ^ 64) :
    pullTokAfterSkip (natToDigits n ++ [' '])
      = (Except.ok (Token.lit (Lit.int n)), [' '], 0) := by
  obtain ⟨c, ds, hds⟩ : ∃ c ds, natToDigits n = c :: ds := by
    rcases h : natToDigits n with _ | ⟨c, ds⟩
    · exact absurd h (natToDigits_ne_nil n)
    · exact ⟨c, ds, rfl⟩
  have hall : ∀ x ∈ c :: ds, isDigitCh x = true := by
    rw [← hds]
    exact natToDigits_digits n
  have hcd : isDigitCh c = true := hall c (by simp)
  have hval : natOfDigits (c :: ds) = n := by
    rw [← hds]
    exact natOfDigits_natToDigits n
  rw [hds, List.cons_append]
  simp only [pullTokAfterSkip]
  rw [if_neg (isDigitCh_ne_quote c hcd), if_pos hcd]
  have hsn : scanNumber (c :: (ds ++ [' '])) false = (c :: ds, false, [' ']) := by
    have h := scanNumber_digits (c :: ds) hall
    simpa [List.cons_append] using h
  rw [hsn]
  show (if natOfDigits (c :: ds) < 2 ^ 64 then
      (Except.ok (Token.lit (Lit.int (natOfDigits (c :: ds)))), ([' '] : List Char), 0)
    else (Except.error "Invalid integer literal", c :: (ds ++ [' ']), 0))
    = (Except.ok (Token.lit (Lit.int n)), [' '], 0)
  rw [if_pos (by rw [hval]; exact hn), hval]

/- ------------------------------------------------------------------
Claim theorems.
------------------------------------------------------------------ -/

/-- C1: code-bug demonstration.  In `ExportExpr::typecheck`, when the
expression resolves to a named entity the export is recorded and the function
returns before the `isRootScope` check, so at a non-root scope (two scopes on
the stack) the export IS added to the ParsedSrc exports table and NO error
diagnostic is emitted — contradicting the claim (and spec §3 invariant 5,
§4.3), whose intent the unreachable "Export statements may only appear at
top-level" error in the same function shows. -/
theorem exportExpr_nonroot_export_recorded :
    isRootScope ⟨[⟨none, false⟩, ⟨none, false⟩], [], 0⟩ = false
    ∧ (exportExprTypecheck (fun st => (some ⟨["x"], some Ty.Int⟩, st))
        ⟨[⟨none, false⟩, ⟨none, false⟩], [], 0⟩).2.exports = [⟨["x"], some Ty.Int⟩]
    ∧ (exportExprTypecheck (fun st => (some ⟨["x"], some Ty.Int⟩, st))
        ⟨[⟨none, false⟩, ⟨none, false⟩], [], 0⟩).2.errs = 0 := by
  refine ⟨rfl, rfl, rfl⟩

/-- C2: code-bug demonstration.  `Token::pull` on the unterminated string
input `"abc` (no closing quote before EOF) returns a SUCCESSFUL string
literal token containing `abc` and consumes the whole input: the loop
`while (auto c = stream.next())` simply ends at EOF and falls through to
`done(Token(Lit(lit)))`.  The claim (and spec §4.2/§7: "EOF inside string is
a hard error") says this must be an error; only EOF immediately after a
backslash errors. -/
theorem pull_unterminated_string_succeeds :
    (pullTok ⟨chQuote :: "abc".toList, none, 0⟩).1
      = Except.ok (Token.lit (Lit.str "abc".toList))
    ∧ (pullTok ⟨chQuote :: "abc".toList, none, 0⟩).2.rem = [] := by
  refine ⟨rfl, rfl⟩

/-- C3: code-bug demonstration.  The block-comment loop in
`Token::skipToNext` consumes one byte in its loop condition and one more in
its body on every iteration, so it sees only every other byte as a potential
`*` of `*/`, and when it does exit it leaves the closing `/` unconsumed
(despite the in-code comment "eat last /").  On `"/* a */ 1"` the closer's
`*` falls on a body position, the scanner consumes the ENTIRE input
(including the `1`), and `Token::pull` then fails with end-of-file instead of
producing `Int(1)`.  On `"/**/1"` it stops at the closing `/`, which is then
lexed as the division operator. -/
theorem skipToNext_block_comment_overruns :
    skipToNext ("/* a */ 1".toList) = []
    ∧ (pullTok ⟨"/* a */ 1".toList, none, 0⟩).1
        = Except.error "Expected token, found end-of-file"
    ∧ skipToNext ("/**/1".toList) = "/1".toList
    ∧ (pullTok ⟨"/**/1".toList, none, 0⟩).1 = Except.ok (Token.op Op.Div) := by
  refine ⟨rfl, rfl, rfl, rfl⟩

/-- C4 counterexample: pulling a token from the input `"\q"` yields a string
token whose contents are EMPTY, not `"q"`: the unknown-escape arm of the
switch warns and appends nothing, dropping the escaped character along with
the backslash. -/
theorem pull_unknown_escape_counterexample :
    (pullTok ⟨[chQuote, chBackslash, 'q', chQuote], none, 0⟩).1
      = Except.ok (Token.lit (Lit.str []))
    ∧ Lit.str [] ≠ Lit.str ['q'] := by
  exact ⟨rfl, by decide⟩

/-- C4 (amended): when `Token::pull` encounters an unknown escape sequence
inside a string literal it emits a warning and drops BOTH the backslash and
the escaped character: for every unknown escape character `e` (not NUL),
pulling from `"\e"` succeeds with the empty string contents and exactly one
new warning. -/
theorem pull_unknown_escape_drops_both (e : Char) (hu : unescape e = none)
    (h0 : ¬e = chNul) (lst : Option Token) (w : Nat) :
    pullTok ⟨[chQuote, chBackslash, e, chQuote], lst, w⟩
      = (Except.ok (Token.lit (Lit.str [])),
         ⟨[], some (Token.lit (Lit.str [])), w + 1⟩) := by
  have hsk : skipToNext [chQuote, chBackslash, e, chQuote]
      = [chQuote, chBackslash, e, chQuote] :=
    skipToNext_no_skip _ _ (by decide) (by decide)
  have h1 : scanString [chQuote] = some ([], [], 0) := by
    simp [scanString, chQB]
  have hstep : scanString [chBackslash, e, chQuote]
      = (scanString [chQuote]).map (fun q => (q.1, q.2.1, q.2.2 + 1)) := by
    simp [scanString, h0, hu]
  have hscan : scanString [chBackslash, e, chQuote] = some ([], [], 1) := by
    rw [hstep, h1]
    rfl
  have hcore : pullTokCore [chQuote, chBackslash, e, chQuote]
      = (Except.ok (Token.lit (Lit.str [])), [], 1) := by
    unfold pullTokCore
    rw [hsk]
    simp [pullTokAfterSkip, hscan]
  unfold pullTok
  rw [hcore]

/-- C4 witness: the amended claim at the concrete input `"\q"`. -/
theorem pull_unknown_escape_drops_both_witness :
    unescape 'q' = none
    ∧ pullTok ⟨[chQuote, chBackslash, 'q', chQuote], none, 0⟩
        = (Except.ok (Token.lit (Lit.str [])),
           ⟨[], some (Token.lit (Lit.str [])), 1⟩) :=
  ⟨by decide, pull_unknown_escape_drops_both 'q' (by decide) (by decide) none 0⟩

/-- C5 counterexample: `Token::pull` runs `skipToNext` BEFORE opening its
rollback frame, so a failing pull on the input `" "` (a single space) leaves
the stream offset one byte past where it started: the offset after the call
is not the offset before the call. -/
theorem pull_error_offset_moves_counterexample :
    isOkE (pullTok ⟨[' '], none, 0⟩).1 = false
    ∧ (pullTok ⟨[' '], none, 0⟩).2.rem = []
    ∧ (⟨[' '], none, 0⟩ : Stream).rem ≠ [] := by
  refine ⟨rfl, rfl, by decide⟩

/-- C5 (amended): for every input, when `Token::pull` or `AST::pull` returns
an error, the stream position after the call equals the position recorded by
the rollback frame, i.e. the position just after the initial
`skipToNext` — whitespace and comments skipped before the frame opened stay
consumed, and nothing else does.  `AST::pull` is quantified over an arbitrary
embedded expression parser `g` standing for the missing `Expr::pull`. -/
theorem pull_error_restores_to_skipped :
    (∀ s : Stream, isOkE (pullTok s).1 = false →
      (pullTok s).2.rem = skipToNext s.rem)
    ∧ (∀ (g : Stream → Except String Unit × Stream) (s : Stream),
        isOkE (astPull g s).1 = false → (astPull g s).2.rem = skipToNext s.rem) := by
  constructor
  · exact fun s h => pullTok_err_rem s h
  · intro g s h
    unfold astPull at h ⊢
    rcases hgo : astPullGo g ((skipToNext s.rem).length + 1)
        ⟨skipToNext s.rem, s.last, s.warns⟩ with ⟨res, s'⟩
    cases res with
    | ok u =>
      rw [hgo] at h
      simp [isOkE] at h
    | error e => rfl

/-- C5 witness: both halves of the amended claim at concrete inputs: a
failing `Token::pull` on `" "` ends at the post-skip position, and a failing
`AST::pull` (with an expression parser that always fails) does the same. -/
theorem pull_error_restores_to_skipped_witness :
    ((pullTok ⟨[' '], none, 0⟩).2.rem = skipToNext [' ']
      ∧ isOkE (pullTok ⟨[' '], none, 0⟩).1 = false)
    ∧ ((astPull gFail ⟨[' ', '1'], none, 0⟩).2.rem = skipToNext [' ', '1']
      ∧ isOkE (astPull gFail ⟨[' ', '1'], none, 0⟩).1 = false) :=
  ⟨⟨pull_error_restores_to_skipped.1 ⟨[' '], none, 0⟩ rfl, rfl⟩,
   ⟨pull_error_restores_to_skipped.2 gFail ⟨[' ', '1'], none, 0⟩ rfl, rfl⟩⟩

/-- C7: `Token::pullSemicolons` succeeds exactly when the last-token memo is
`}` or a `;` token comes next (so with no `;` present it succeeds only after
a `}`); on success no `;` token remains next (every consecutive `;` was
consumed); on failure the stream position is unchanged. -/
theorem pullSemicolons_semicolon_rule (s : Stream) :
    (isOkE (pullSemicolons s).1 = true ↔
      (s.last = some (Token.punct chRBrace) ∨ nextIsSemi s.rem = true))
    ∧ (isOkE (pullSemicolons s).1 = true →
        nextIsSemi ((pullSemicolons s).2).rem = false)
    ∧ (isOkE (pullSemicolons s).1 = false → (pullSemicolons s).2.rem = s.rem) := by
  by_cases hlast : s.last = some (Token.punct chRBrace)
  · unfold pullSemicolons
    rw [if_pos hlast]
    refine ⟨?_, ?_, ?_⟩
    · simp [isOkE, hlast]
    · intro _
      exact eatSemis_no_semi s
    · intro hc
      simp [isOkE] at hc
  · unfold pullSemicolons
    rw [if_neg hlast]
    rcases hpe : pullExpectSemi s with ⟨res, s'⟩
    have hfst := pullExpectSemi_fst s
    rw [hpe] at hfst
    cases res with
    | ok u =>
      refine ⟨?_, ?_, ?_⟩
      · constructor
        · intro _
          right
          simpa [isOkE] using hfst.symm
        · intro _
          simp [isOkE]
      · intro _
        exact eatSemis_no_semi s'
      · intro hc
        simp [isOkE] at hc
    | error e =>
      have herr := pullExpectSemi_err_rem s (by rw [hpe]; simp [isOkE])
      rw [hpe] at herr
      refine ⟨?_, ?_, ?_⟩
      · constructor
        · intro hc
          simp [isOkE] at hc
        · intro hor
          rcases hor with h1 | h1
          · exact absurd h1 hlast
          · rw [h1] at hfst
            simp [isOkE] at hfst
      · intro hc
        simp [isOkE] at hc
      · intro _
        simpa using herr

/-- C7 witness: a `;` comes next, so `pullSemicolons` succeeds even though
the memo is not `}`. -/
theorem pullSemicolons_semicolon_rule_witness :
    nextIsSemi ((⟨[';'], none, 0⟩ : Stream).rem) = true
    ∧ isOkE (pullSemicolons ⟨[';'], none, 0⟩).1 = true :=
  ⟨rfl, (pullSemicolons_semicolon_rule ⟨[';'], none, 0⟩).1.mpr (Or.inr rfl)⟩

/-- C8: `opPriority` and `opDir` realize exactly the precedence/associativity
table of the spec, and `isUnOp` holds exactly for `+`, `-` and `!`. -/
theorem op_table_matches_spec :
    ((opPriority Op.Not = 7 ∧ opDir Op.Not = OpDir.RTL)
    ∧ (opPriority Op.Mul = 6 ∧ opDir Op.Mul = OpDir.LTR)
    ∧ (opPriority Op.Div = 6 ∧ opDir Op.Div = OpDir.LTR)
    ∧ (opPriority Op.Mod = 6 ∧ opDir Op.Mod = OpDir.LTR)
    ∧ (opPriority Op.Add = 5 ∧ opDir Op.Add = OpDir.LTR)
    ∧ (opPriority Op.Sub = 5 ∧ opDir Op.Sub = OpDir.LTR)
    ∧ (opPriority Op.Eq = 4 ∧ opDir Op.Eq = OpDir.LTR)
    ∧ (opPriority Op.Neq = 4 ∧ opDir Op.Neq = OpDir.LTR)
    ∧ (opPriority Op.Less = 4 ∧ opDir Op.Less = OpDir.LTR)
    ∧ (opPriority Op.Leq = 4 ∧ opDir Op.Leq = OpDir.LTR)
    ∧ (opPriority Op.More = 4 ∧ opDir Op.More = OpDir.LTR)
    ∧ (opPriority Op.Meq = 4 ∧ opDir Op.Meq = OpDir.LTR)
    ∧ (opPriority Op.And = 3 ∧ opDir Op.And = OpDir.LTR)
    ∧ (opPriority Op.Or = 2 ∧ opDir Op.Or = OpDir.LTR)
    ∧ (opPriority Op.ModSeq = 1 ∧ opDir Op.ModSeq = OpDir.RTL)
    ∧ (opPriority Op.DivSeq = 1 ∧ opDir Op.DivSeq = OpDir.RTL)
    ∧ (opPriority Op.MulSeq = 1 ∧ opDir Op.MulSeq = OpDir.RTL)
    ∧ (opPriority Op.SubSeq = 1 ∧ opDir Op.SubSeq = OpDir.RTL)
    ∧ (opPriority Op.AddSeq = 1 ∧ opDir Op.AddSeq = OpDir.RTL)
    ∧ (opPriority Op.Seq = 1 ∧ opDir Op.Seq = OpDir.RTL)
    ∧ (opPriority Op.Arrow = 0 ∧ opDir Op.Arrow = OpDir.RTL)
    ∧ (opPriority Op.Farrow = 0 ∧ opDir Op.Farrow = OpDir.RTL)
    ∧ (opPriority Op.Bind = 0 ∧ opDir Op.Bind = OpDir.LTR)
    ∧ (opPriority Op.Scope = 0 ∧ opDir Op.Scope = OpDir.LTR))
    ∧ (∀ o : Op, isUnOp o = (o == Op.Add || o == Op.Sub || o == Op.Not)) :=
  ⟨by decide, fun o => by cases o <;> rfl⟩

/-- C9: `Namespace::makeEntity` constructs the entity against the pre-insert
namespace, runs its `applyTypeDefinition` hook on the entity and that same
pre-insert namespace, and only then inserts the hook-processed entity by
appending it under its name: the hook never observes the new entity in the
map, and exactly one entry for the name is appended after the hook ran. -/
theorem makeEntity_hook_before_insert (α : Type) (ctor : NamespaceSt α → α)
    (hook : α → NamespaceSt α → α × NamespaceSt α) (name : String)
    (ns : NamespaceSt α) :
    (makeEntity ctor hook name ns).1 = (hook (ctor ns) ns).1
    ∧ (makeEntity ctor hook name ns).2.entities
        = (hook (ctor ns) ns).2.entities ++ [(name, (hook (ctor ns) ns).1)]
    ∧ getEntities name (makeEntity ctor hook name ns).2
        = getEntities name (hook (ctor ns) ns).2 ++ [(hook (ctor ns) ns).1] := by
  refine ⟨rfl, rfl, ?_⟩
  simp [getEntities, makeEntity, pushEntity, List.filter_append]

/-- C10: `BlockExpr::typecheck` pushes exactly one scope, typechecks the
inner list, pops exactly one scope: whenever the inner typecheck preserves
the scope-stack depth, so does the block, and the block's returned type is
exactly the inner list's type. -/
theorem blockExpr_scope_neutral (inner : UnitParserSt → Ty × UnitParserSt)
    (st : UnitParserSt)
    (hinner : ∀ u : UnitParserSt, ((inner u).2).scopes.length = u.scopes.length) :
    ((blockExprTypecheck inner st).2).scopes.length = st.scopes.length
    ∧ (blockExprTypecheck inner st).1 = (inner (pushScope none false st)).1 := by
  constructor
  · have h := hinner (pushScope none false st)
    simp only [blockExprTypecheck, popScope, List.length_tail]
    rw [h]
    simp [pushScope]
  · rfl

/-- C10 witness: the theorem at a depth-preserving inner typecheck and a
one-scope (root) state. -/
theorem blockExpr_scope_neutral_witness :
    ((blockExprTypecheck (fun u => (Ty.Void, u)) ⟨[⟨none, false⟩], [], 0⟩).2).scopes.length
      = (⟨[⟨none, false⟩], [], 0⟩ : UnitParserSt).scopes.length
    ∧ (blockExprTypecheck (fun u => (Ty.Void, u)) ⟨[⟨none, false⟩], [], 0⟩).1
        = ((fun u => (Ty.Void, u))
            (pushScope none false ⟨[⟨none, false⟩], [], 0⟩)).1 :=
  blockExpr_scope_neutral (fun u => (Ty.Void, u)) ⟨[⟨none, false⟩], [], 0⟩
    (fun _ => rfl)

/-- C6 counterexample: the round-trip property fails for string literal
tokens.  `tokenToString(Lit("x"), debug=false)` prints the raw contents `x`
without quotes, and re-tokenizing yields an identifier token — a different
kind. -/
theorem token_roundtrip_string_counterexample :
    resultKind (pullTok (roundTripInput (Token.lit (Lit.str ['x'])))).1
      = some TokKind.ident
    ∧ kindOf (Token.lit (Lit.str ['x'])) = TokKind.litStr
    ∧ TokKind.ident ≠ TokKind.litStr := by
  refine ⟨rfl, rfl, by decide⟩

/-- C6 (amended): for every lexer-producible token `T` (identifier tokens
carry a valid identifier other than `void`; keyword tokens are not
`true`/`false`, which the lexer emits as bool literals; integer literals fit
in a u64; punctuation tokens are punctuation characters) that is neither a
string literal (printed unquoted, so it re-tokenizes as an identifier) nor a
float literal (whose printing depends on f64 formatting, not modelled),
re-tokenizing `tokenToString(T, debug=false)` surrounded by whitespace
succeeds and yields a token of the same kind as `T`. -/
theorem token_roundtrip_kind (t : Token) (hw : wfToken t)
    (hstr : kindOf t ≠ TokKind.litStr) (hflt : kindOf t ≠ TokKind.litFloat) :
    resultKind (pullTok (roundTripInput t)).1 = some (kindOf t) := by
  cases t with
  | kw k =>
    obtain ⟨ht, hf2⟩ := hw
    cases k <;> first | rfl | exact absurd rfl ht | exact absurd rfl hf2
  | ident s =>
    obtain ⟨hid, hvoid⟩ := hw
    cases s with
    | nil => simp [isIdent] at hid
    | cons c s' =>
      have hic : isIdentCh c = true := by
        have h2 := hid
        simp only [isIdent, Bool.and_eq_true, List.all_eq_true] at h2
        exact h2.1.2 c (by simp)
      have hsk : skipToNext (' ' :: (c :: (s' ++ [' ']))) = c :: (s' ++ [' ']) :=
        skipToNext_one_space c (s' ++ [' ']) (isIdentCh_not_space c hic)
          (isIdentCh_ne_slash c hic)
      have heval := pullTokAfterSkip_ident c s' hid hvoid
      rw [pullTok_fst]
      unfold pullTokCore
      rw [show (roundTripInput (Token.ident (c :: s'))).rem
          = ' ' :: (c :: (s' ++ [' '])) from by
        simp [roundTripInput, tokenToString]]
      rw [hsk, heval]
      rfl
  | lit l =>
    cases l with
    | void => rfl
    | bool b => cases b <;> rfl
    | int n =>
      obtain ⟨c, ds, hds⟩ : ∃ c ds, natToDigits n = c :: ds := by
        rcases h : natToDigits n with _ | ⟨c, ds⟩
        · exact absurd h (natToDigits_ne_nil n)
        · exact ⟨c, ds, rfl⟩
      have hcd : isDigitCh c = true := natToDigits_digits n c (by rw [hds]; simp)
      have hsk : skipToNext (' ' :: (c :: (ds ++ [' ']))) = c :: (ds ++ [' ']) :=
        skipToNext_one_space c (ds ++ [' ']) (isDigitCh_not_space c hcd)
          (isDigitCh_ne_slash c hcd)
      have heval := pullTokAfterSkip_int n hw
      rw [pullTok_fst]
      unfold pullTokCore
      rw [show (roundTripInput (Token.lit (Lit.int n))).rem
          = ' ' :: (c :: (ds ++ [' '])) from by
        simp [roundTripInput, tokenToString, hds]]
      rw [hsk]
      rw [show c :: (ds ++ [' ']) = natToDigits n ++ [' '] from by rw [hds]; rfl]
      rw [heval]
      rfl
    | float m => exact absurd rfl hflt
    | str s2 => exact absurd rfl hstr
  | op o => cases o <;> rfl
  | punct c =>
    have hw2 : c ∈ PUNCTUATION := hw
    fin_cases hw2 <;> rfl

/-- C6 witness: the amended round-trip at the keyword token `return`. -/
theorem token_roundtrip_kind_witness :
    wfToken (Token.kw Keyword.Return)
    ∧ resultKind (pullTok (roundTripInput (Token.kw Keyword.Return))).1
        = some (kindOf (Token.kw Keyword.Return)) :=
  ⟨⟨by decide, by decide⟩,
   token_roundtrip_kind (Token.kw Keyword.Return) ⟨by decide, by decide⟩
     (by decide) (by decide)⟩

end GemScript
